import Mathlib

/-!
Shallow embedding of the retrieval pipeline in `src/retrieval.py` of the
AI-Day-exercies repository, together with theorems checking the
natural-language specification against it.

Modelling conventions:
* Python strings are `List Char` (`Str`), embedding vectors are `List ℚ`.
* The external embedding service (`client.embeddings.create`) is an oracle
  `Str → Option Vec`; `none` models any raised exception, `some v` the
  vector of the successful response.
* Raised exceptions of modelled code are `Except String` errors; functions
  whose Python bodies catch every exception are total.
* Each result that may interact with the embedding service also records the
  list of inputs sent to the service, so that "the service is not invoked"
  is a statement about the model.
-/

namespace Retrieval

/-- Python strings, modelled as lists of characters. -/
abbrev Str := List Char

/-- Embedding vectors, with exact rational coordinates. -/
abbrev Vec := List ℚ

/-- The embedding dimension of text-embedding-ada-002: 1536. -/
def embedDim : Nat := 1536

/-- The zero vector `[0.0] * 1536` appended when embedding a chunk fails
(retrieval.py line 123). -/
def zeroVec : Vec := List.replicate embedDim 0

/-- The process environment as seen through `os.getenv`: each variable is
either unset (`none`) or a string, possibly empty. -/
structure Env where
  KONG_API_TOKEN : Option Str
  KONG_BASE_URL : Option Str

/-- Python truthiness of an `os.getenv` result: `None` and the empty string
are falsy. -/
def truthy : Option Str → Bool
  | none => false
  | some s => !s.isEmpty

/-- The message of the ValueError raised by `get_kong_client` when the Kong
configuration is missing (retrieval.py line 24). -/
def kongMissingMsg : String :=
  "Kong configuration missing. Please set KONG_API_TOKEN and KONG_BASE_URL in .env file"

/-- `get_kong_client` (retrieval.py lines 11-32): reads `KONG_API_TOKEN` and
`KONG_BASE_URL`; raises ValueError when either is missing or empty, otherwise
returns a client, modelled as the (token, base-url) pair it is built from. -/
def get_kong_client (env : Env) : Except String (Str × Str) :=
  if !truthy env.KONG_API_TOKEN || !truthy env.KONG_BASE_URL then
    .error kongMissingMsg
  else
    .ok (env.KONG_API_TOKEN.getD [], env.KONG_BASE_URL.getD [])

/-- A NumPy 2-d float array: its rows together with its second shape
component (`shape = (rows.length, width)`). -/
structure NpMatrix where
  rows : List Vec
  width : Nat
deriving DecidableEq

/-- The value produced by `embed_chunks`, together with the trace of inputs
sent to the embedding service, in order. -/
structure EmbedResult where
  matrix : NpMatrix
  calls : List Str
deriving DecidableEq

/-- `embed_chunks` (retrieval.py lines 94-127): on an empty chunk list return
the `(0, 1536)`-shaped empty array without touching the client; otherwise
build the client (raising if the configuration is missing), then embed each
chunk in order, substituting the 1536-long zero vector whenever the service
call fails.  The width of the resulting `np.array` is inferred from the first
row, as NumPy does for a well-formed nested list. -/
def embed_chunks (env : Env) (svc : Str → Option Vec) (chunks : List Str) :
    Except String EmbedResult :=
  if chunks.isEmpty then
    .ok ⟨⟨[], 1536⟩, []⟩
  else
    match get_kong_client env with
    | .error e => .error e
    | .ok _client =>
      let rows := chunks.map fun chunk =>
        match svc chunk with
        | some v => v
        | none => zeroVec
      .ok ⟨⟨rows, (rows.headD []).length⟩, chunks⟩

/-- Squared Euclidean (L2) distance over raw coordinates, the metric of
`faiss.IndexFlatL2`. -/
def sqDist (u v : Vec) : ℚ := (List.zipWith (fun a b => (a - b) * (a - b)) u v).sum

/-- The ranking order on (row position, distance) candidates: ascending
distance, ties broken by ascending row position. -/
def knnLE (a b : Nat × ℚ) : Prop := a.2 < b.2 ∨ (a.2 = b.2 ∧ a.1 ≤ b.1)

instance : DecidableRel knnLE := fun a b => by
  unfold knnLE
  infer_instance

instance : IsTotal (Nat × ℚ) knnLE where
  total a b := by
    rcases lt_trichotomy a.2 b.2 with h | h | h
    · exact Or.inl (Or.inl h)
    · rcases Nat.le_total a.1 b.1 with hn | hn
      · exact Or.inl (Or.inr ⟨h, hn⟩)
      · exact Or.inr (Or.inr ⟨h.symm, hn⟩)
    · exact Or.inr (Or.inl h)

instance : IsTrans (Nat × ℚ) knnLE where
  trans a b c hab hbc := by
    rcases hab with hab | ⟨hab, hab'⟩
    · rcases hbc with hbc | ⟨hbc, _⟩
      · exact Or.inl (hab.trans hbc)
      · exact Or.inl (hbc ▸ hab)
    · rcases hbc with hbc | ⟨hbc, hbc'⟩
      · exact Or.inl (hab ▸ hbc)
      · exact Or.inr ⟨hab.trans hbc, hab'.trans hbc'⟩

/-- Modelled from the spec: the `faiss.IndexFlatL2` build and `index.search`
call (retrieval.py lines 157-164) run inside the external faiss library,
whose code is not part of this repository.  Per the spec's Similarity Index
contract, the search returns the row positions with smallest squared
Euclidean distance to the query, ascending by distance, ties broken by
ascending row position, at most `k` of them and never more than the number
of stored rows (faiss pads with -1 labels beyond that, which the caller's
bound check discards, so the padding is not represented). -/
def knnScored (rows : List Vec) (q : Vec) : List (Nat × ℚ) :=
  (List.range rows.length).map fun i => (i, sqDist (rows.getD i []) q)

/-- Modelled from the spec: the k-nearest query of the external faiss index —
all candidate rows of `knnScored` ranked by `knnLE`, truncated to `k`,
keeping only the row positions. -/
def knnSearch (rows : List Vec) (q : Vec) (k : Nat) : List Nat :=
  (((knnScored rows q).insertionSort knnLE).take k).map Prod.fst

/-- The value produced by `retrieve_relevant_chunks`, together with the trace
of inputs sent to the embedding service, in order. -/
structure RetrieveResult where
  result : List Str
  calls : List Str
deriving DecidableEq

/-- `retrieve_relevant_chunks` (retrieval.py lines 130-177): empty chunk list
or zero-row matrix returns `[]` at once.  Everything else runs in a try block
whose catch-all handler returns the first `top_k` chunks: client construction
(missing configuration), the question-embedding call, and the faiss search,
which raises when the query's dimension differs from the index dimension
`embeddings.shape[1]`.  On the success path the returned positions are mapped
back through the `0 <= idx < len(chunks)` bound check. -/
def retrieve_relevant_chunks (env : Env) (svc : Str → Option Vec)
    (question : Str) (chunks : List Str) (embeddings : NpMatrix)
    (top_k : Nat := 3) : RetrieveResult :=
  if chunks.isEmpty || embeddings.rows.length == 0 then
    ⟨[], []⟩
  else
    match get_kong_client env with
    | .error _ => ⟨chunks.take top_k, []⟩
    | .ok _client =>
      match svc question with
      | none => ⟨chunks.take top_k, [question]⟩
      | some qvec =>
        if qvec.length = embeddings.width then
          let k := min top_k chunks.length
          let idxs := knnSearch embeddings.rows qvec k
          ⟨(idxs.filter (fun i => i < chunks.length)).map (fun i => chunks.getD i []),
            [question]⟩
        else
          ⟨chunks.take top_k, [question]⟩

/-- The whitespace characters of Python's `str.strip` and of `\s` in the
`re` module (ASCII range): space, tab, newline, CR, vertical tab, form
feed. -/
def isPySpace (c : Char) : Bool :=
  c = ' ' || c = '\t' || c = '\n' || c = '\r' || c = '\x0b' || c = '\x0c'

/-- Python `str.strip()`: drop leading and trailing whitespace. -/
def pyStrip (s : Str) : Str :=
  ((s.dropWhile isPySpace).reverse.dropWhile isPySpace).reverse

/-- Python `str.rfind` for a single character: the index of its last
occurrence, or -1 when it does not occur. -/
def pyRfind (c : Char) (s : Str) : Int :=
  match s.reverse.findIdx? (fun d => d = c) with
  | some j => (s.length : Int) - 1 - j
  | none => -1

/-- The number of iterations of Python's `range(0, len, 800)`:
`ceil(len / 800)`. -/
def winCount (len : Nat) : Nat := (len + 799) / 800

/-- Python's `range(0, len, 800)` as the list of window start offsets
`[0, 800, 1600, ...]`. -/
def pyRangeIdx (len : Nat) : List Nat := List.range' 0 (winCount len) 800

/-- The slice `content[i:i+800]`. -/
def windowAt (content : Str) (i : Nat) : Str := (content.drop i).take 800

/-- One window of the chunking loop (retrieval.py lines 66-72): the
800-character slice starting at offset `i`, shortened to end at its last
period when that period lies strictly after position `800 * 0.7 = 560` and
the window is not the final one (`i + 800 < len(content)`). -/
def windowChunk (content : Str) (i : Nat) : Str :=
  let chunk := windowAt content i
  if i + 800 < content.length then
    let lastPeriod := pyRfind '.' chunk
    if 560 < lastPeriod then chunk.take (lastPeriod + 1).toNat else chunk
  else chunk

/-- The chunking loop of `get_wikipedia_chunks` (retrieval.py lines 62-80):
walk the precomputed window offsets in order, strip each (possibly
period-shortened) window, keep it when non-empty, and stop as soon as the
accumulator has reached `max_chunks` entries.  `acc` holds the chunks
collected so far, most recent first. -/
def chunkLoop (content : Str) : List Nat → List Str → Nat → List Str
  | [], acc, _ => acc.reverse
  | i :: is, acc, max_chunks =>
    let stripped := pyStrip (windowChunk content i)
    let acc' := if stripped.isEmpty then acc else stripped :: acc
    if max_chunks ≤ acc'.length then acc'.reverse
    else chunkLoop content is acc' max_chunks

/-- The whole chunk-splitting pass (retrieval.py lines 62-80) over already
cleaned content. -/
def chunkText (content : Str) (max_chunks : Nat) : List Str :=
  chunkLoop content (pyRangeIdx content.length) [] max_chunks

/-- The composition of `re.sub(r'\n+', ' ', ·)` and `re.sub(r'\s+', ' ', ·)`
(retrieval.py lines 57-58): every maximal run of whitespace becomes a single
space.  The flag records whether the previous character was whitespace. -/
def collapseWsAux : Bool → Str → Str
  | _, [] => []
  | prev, c :: rest =>
    if isPySpace c then
      if prev then collapseWsAux true rest else ' ' :: collapseWsAux true rest
    else c :: collapseWsAux false rest

/-- Whitespace collapsing, starting outside any whitespace run. -/
def collapseWs (s : Str) : Str := collapseWsAux false s

/-- The content cleanup of retrieval.py lines 57-59: collapse whitespace
runs, then strip. -/
def cleanContent (s : Str) : Str := pyStrip (collapseWs s)

/-- The successive 800-character windows from which the chunking loop cuts
its chunks, before period-shortening and stripping. -/
def windows (content : Str) : List Str :=
  (pyRangeIdx content.length).map (windowAt content)

/-- Outcome of a `wikipedia.page(title)` call: the page content, a raised
DisambiguationError carrying its options, or any other raised exception. -/
inductive PageResult where
  | ok (content : Str)
  | disambig (options : List Str)
  | err

/-- The external wikipedia collaborator: `search(query, results=1)` either
raises (`none`) or returns a list of titles; `page(title)` as above. -/
structure Wiki where
  search : Str → Option (List Str)
  page : Str → PageResult

/-- `get_wikipedia_chunks` (retrieval.py lines 35-91): search, fetch the
first hit's page, clean and chunk its content; on a DisambiguationError
fetch the first option's page instead and recurse with that page's own
content as the next query; every other raised exception yields `[]`.
`fuel` bounds the recursion depth of the model (the source recursion is
unbounded in principle); the theorems below instantiate it large enough
that fuel exhaustion is never the reason a value is returned. -/
def get_wikipedia_chunks (w : Wiki) : Nat → Str → Nat → List Str
  | 0, _, _ => []
  | fuel + 1, query, max_chunks =>
    match w.search query with
    | none => []
    | some [] => []
    | some (first :: _) =>
      match w.page first with
      | .ok content => chunkText (cleanContent content) max_chunks
      | .disambig options =>
        match options with
        | [] => []
        | o :: _ =>
          match w.page o with
          | .ok content => get_wikipedia_chunks w fuel content max_chunks
          | .disambig _ => []
          | .err => []
      | .err => []

/-! ### Concrete collaborators used to instantiate theorems -/

/-- An environment with both Kong variables set. -/
def envW : Env := ⟨some ['t'], some ['u']⟩

/-- An environment with the API token unset. -/
def envMiss : Env := ⟨none, some ['u']⟩

/-- An embedding service whose every call fails. -/
def svcFail : Str → Option Vec := fun _ => none

/-- An embedding service constantly returning the 2-dimensional vector
`[1, 0]`. -/
def svcConst2 : Str → Option Vec := fun _ => some [1, 0]

/-- An embedding service constantly returning the 3-dimensional vector
`[1, 0, 0]`. -/
def svcConst3 : Str → Option Vec := fun _ => some [1, 0, 0]

/-- A wikipedia collaborator whose search call always raises. -/
def wikiDown : Wiki := ⟨fun _ => none, fun _ => .err⟩

/-! ### Helper lemmas about the similarity search -/

theorem sqDist_self (v : Vec) : sqDist v v = 0 := by
  simp [sqDist]

theorem knnScored_shape {rows : List Vec} {q : Vec} {p : Nat × ℚ}
    (hp : p ∈ knnScored rows q) :
    p.1 < rows.length ∧ p.2 = sqDist (rows.getD p.1 []) q := by
  simp only [knnScored] at hp
  rcases List.mem_map.1 hp with ⟨i, hi, rfl⟩
  exact ⟨List.mem_range.1 hi, rfl⟩

theorem mem_knnScored {rows : List Vec} {q : Vec} {j : Nat} (hj : j < rows.length) :
    (j, sqDist (rows.getD j []) q) ∈ knnScored rows q := by
  simp only [knnScored]
  exact List.mem_map.2 ⟨j, List.mem_range.2 hj, rfl⟩

theorem knnSearch_length (rows : List Vec) (q : Vec) (k : Nat) :
    (knnSearch rows q k).length = min k rows.length := by
  simp [knnSearch, knnScored, List.length_take, List.length_insertionSort]

theorem knnSearch_take_shape {rows : List Vec} {q : Vec} {k : Nat} {p : Nat × ℚ}
    (hp : p ∈ ((knnScored rows q).insertionSort knnLE).take k) :
    p.1 < rows.length ∧ p.2 = sqDist (rows.getD p.1 []) q :=
  knnScored_shape ((List.mem_insertionSort knnLE).1 (List.take_subset _ _ hp))

theorem knnSearch_mem {rows : List Vec} {q : Vec} {k i : Nat}
    (hi : i ∈ knnSearch rows q k) : i < rows.length := by
  simp only [knnSearch] at hi
  rcases List.mem_map.1 hi with ⟨p, hp, rfl⟩
  exact (knnSearch_take_shape hp).1

theorem knnSearch_pairs_sorted (rows : List Vec) (q : Vec) (k : Nat) :
    (((knnScored rows q).insertionSort knnLE).take k).Pairwise knnLE :=
  List.Pairwise.sublist (List.take_sublist _ _) (List.sorted_insertionSort knnLE _)

theorem knnSearch_fst_pairwise (rows : List Vec) (q : Vec) (k : Nat) :
    (((knnScored rows q).insertionSort knnLE).take k).Pairwise fun p r => p.1 ≠ r.1 := by
  have hperm : (((knnScored rows q).insertionSort knnLE).map Prod.fst).Perm
      ((knnScored rows q).map Prod.fst) := (List.perm_insertionSort knnLE _).map _
  have heq : (knnScored rows q).map Prod.fst = List.range rows.length := by
    simp only [knnScored, List.map_map]
    have hfun : (Prod.fst ∘ fun i : Nat => (i, sqDist (rows.getD i []) q)) = fun i : Nat => i :=
      rfl
    rw [hfun, List.map_id']
  rw [heq] at hperm
  have hnd : (((knnScored rows q).insertionSort knnLE).map Prod.fst).Nodup :=
    hperm.nodup_iff.2 (List.nodup_range _)
  have hpw := List.pairwise_map.1 hnd
  exact List.Pairwise.sublist (List.take_sublist _ _) hpw

theorem knnSearch_cross {rows : List Vec} {q : Vec} {k : Nat} {p r : Nat × ℚ}
    (hp : p ∈ ((knnScored rows q).insertionSort knnLE).take k)
    (hr : r ∈ ((knnScored rows q).insertionSort knnLE).drop k) :
    knnLE p r := by
  have hs : ((knnScored rows q).insertionSort knnLE).Pairwise knnLE :=
    List.sorted_insertionSort knnLE _
  rw [← List.take_append_drop k ((knnScored rows q).insertionSort knnLE)] at hs
  exact (List.pairwise_append.1 hs).2.2 p hp r hr

/-- C3: for every embedding matrix of N rows and every query vector, the
k-nearest-neighbor search returns row positions with the smallest squared
Euclidean distance, in ascending order of distance with ties broken by
ascending row position; if the query equals row j and every other row is at
strictly positive distance, row j is returned first with distance 0. -/
theorem knn_returns_nearest_ascending (rows : List Vec) (q : Vec) (k : Nat) :
    ((knnSearch rows q k).length = min k rows.length
      ∧ (∀ i ∈ knnSearch rows q k, i < rows.length)
      ∧ (knnSearch rows q k).Pairwise (fun i j =>
          sqDist (rows.getD i []) q < sqDist (rows.getD j []) q
            ∨ (sqDist (rows.getD i []) q = sqDist (rows.getD j []) q ∧ i < j))
      ∧ ∀ i ∈ knnSearch rows q k, ∀ j, j < rows.length → j ∉ knnSearch rows q k →
          (sqDist (rows.getD i []) q < sqDist (rows.getD j []) q
            ∨ (sqDist (rows.getD i []) q = sqDist (rows.getD j []) q ∧ i < j)))
      ∧ ∀ j, j < rows.length → q = rows.getD j [] →
          (∀ i, i < rows.length → i ≠ j → 0 < sqDist (rows.getD i []) q) →
          1 ≤ k →
          (knnSearch rows q k).head? = some j ∧ sqDist (rows.getD j []) q = 0 := by
  have hpairwise : (knnSearch rows q k).Pairwise (fun i j =>
      sqDist (rows.getD i []) q < sqDist (rows.getD j []) q
        ∨ (sqDist (rows.getD i []) q = sqDist (rows.getD j []) q ∧ i < j)) := by
    have h3 := (knnSearch_pairs_sorted rows q k).and (knnSearch_fst_pairwise rows q k)
    simp only [knnSearch]
    rw [List.pairwise_map]
    refine List.Pairwise.imp_of_mem ?_ h3
    intro p r hp hr hpr
    obtain ⟨hle, hne⟩ := hpr
    obtain ⟨hp1, hp2⟩ := knnSearch_take_shape hp
    obtain ⟨hr1, hr2⟩ := knnSearch_take_shape hr
    rcases hle with h | ⟨heq, hle⟩
    · exact Or.inl (by rw [← hp2, ← hr2]; exact h)
    · exact Or.inr ⟨by rw [← hp2, ← hr2]; exact heq, lt_of_le_of_ne hle hne⟩
  have hmin : ∀ i ∈ knnSearch rows q k, ∀ j, j < rows.length → j ∉ knnSearch rows q k →
      (sqDist (rows.getD i []) q < sqDist (rows.getD j []) q
        ∨ (sqDist (rows.getD i []) q = sqDist (rows.getD j []) q ∧ i < j)) := by
    intro i hi j hj hjn
    simp only [knnSearch] at hi hjn
    have hjs : (j, sqDist (rows.getD j []) q) ∈ (knnScored rows q).insertionSort knnLE :=
      (List.mem_insertionSort knnLE).2 (mem_knnScored hj)
    have hmem2 : (j, sqDist (rows.getD j []) q) ∈
        ((knnScored rows q).insertionSort knnLE).take k
          ++ ((knnScored rows q).insertionSort knnLE).drop k := by
      rw [List.take_append_drop]
      exact hjs
    rcases List.mem_append.1 hmem2 with h | h
    · exact absurd (List.mem_map.2 ⟨(j, sqDist (rows.getD j []) q), h, rfl⟩) hjn
    · rcases List.mem_map.1 hi with ⟨p, hp, rfl⟩
      have hcross := knnSearch_cross hp h
      obtain ⟨hp1, hp2⟩ := knnSearch_take_shape hp
      have hne : p.1 ≠ j := by
        intro he
        exact hjn (he ▸ List.mem_map.2 ⟨p, hp, rfl⟩)
      rcases hcross with h' | ⟨heq, hle⟩
      · exact Or.inl (by rw [← hp2]; exact h')
      · exact Or.inr ⟨by rw [← hp2]; exact heq, lt_of_le_of_ne hle hne⟩
  refine ⟨⟨knnSearch_length rows q k, fun i hi => knnSearch_mem hi, hpairwise, hmin⟩, ?_⟩
  intro j hj hq hpos hk
  have hd0 : sqDist (rows.getD j []) q = 0 := by rw [hq]; exact sqDist_self _
  have hlen0 : 0 < (knnSearch rows q k).length := by
    rw [knnSearch_length]
    exact Nat.lt_min.2 ⟨hk, lt_of_le_of_lt (Nat.zero_le j) hj⟩
  obtain ⟨h, t, hht⟩ := List.exists_cons_of_ne_nil (List.length_pos.1 hlen0)
  have hhmem : h ∈ knnSearch rows q k := by rw [hht]; exact List.mem_cons_self _ _
  have hjmem : j ∈ knnSearch rows q k := by
    by_contra hjn
    have hmin' := hmin h hhmem j hj hjn
    have hhj : h ≠ j := by
      intro he
      exact hjn (he ▸ hhmem)
    have hpo := hpos h (knnSearch_mem hhmem) hhj
    rw [hd0] at hmin'
    rcases hmin' with hlt | ⟨heq, _⟩
    · exact absurd hlt (not_lt.2 hpo.le)
    · exact absurd heq (ne_of_gt hpo)
  have hhead : h = j := by
    by_contra hhj
    have hjt : j ∈ t := by
      have hm := hht ▸ hjmem
      rcases List.mem_cons.1 hm with he | ht
      · exact absurd he.symm hhj
      · exact ht
    have hpw := hpairwise
    rw [hht, List.pairwise_cons] at hpw
    have hrel := hpw.1 j hjt
    have hpo := hpos h (knnSearch_mem hhmem) hhj
    rw [hd0] at hrel
    rcases hrel with hlt | ⟨heq, _⟩
    · exact absurd hlt (not_lt.2 hpo.le)
    · exact absurd heq (ne_of_gt hpo)
  refine ⟨?_, hd0⟩
  rw [hht, hhead]
  rfl

theorem sqDist_row1_pos : (0 : ℚ) < sqDist [0, 1] [1, 0] := by norm_num [sqDist]

theorem sqDist_row2_pos : (0 : ℚ) < sqDist [9/10, 1/10] [1, 0] := by norm_num [sqDist]

/-- Witness for C3 at the spec's own scenario: matrix
`[[1,0],[0,1],[0.9,0.1]]`, query `[1,0]` equal to row 0, `k = 2`: row 0 is
returned first with distance 0. -/
theorem knn_returns_nearest_ascending_witness :
    (knnSearch [[1, 0], [0, 1], [9/10, 1/10]] [1, 0] 2).head? = some 0
      ∧ sqDist (([[1, 0], [0, 1], [9/10, 1/10]] : List Vec).getD 0 []) [1, 0] = 0 :=
  (knn_returns_nearest_ascending [[1, 0], [0, 1], [9/10, 1/10]] [1, 0] 2).2 0
    (by decide) rfl
    (fun i hi hne =>
      match i, hi, hne with
      | 0, _, hne => absurd rfl hne
      | 1, _, _ => sqDist_row1_pos
      | 2, _, _ => sqDist_row2_pos
      | n + 3, hi, _ =>
        absurd hi (by simp only [List.length_cons, List.length_nil]; omega))
    (by decide)

/-! ### Helper lemmas about lists and the retriever -/

theorem getD_mem : ∀ (l : List Str) (i : Nat), i < l.length → l.getD i [] ∈ l
  | a :: _, 0, _ => List.mem_cons_self a _
  | _ :: t, i + 1, h =>
    List.mem_cons_of_mem _ (getD_mem t i (by simpa using h))

theorem knnSearch_filter_all (rows : List Vec) (q : Vec) (k n : Nat)
    (h : rows.length ≤ n) :
    (knnSearch rows q k).filter (fun i => i < n) = knnSearch rows q k :=
  List.filter_eq_self.2 fun _ ha =>
    decide_eq_true (lt_of_lt_of_le (knnSearch_mem ha) h)

theorem length_ne_zero_of_ne_nil {α : Type} {l : List α} (h : l ≠ []) :
    ¬l.length = 0 := fun h0 => h (List.length_eq_zero.1 h0)

/-! ### The claims -/

/-- C1: with the Kong configuration present and a service whose successful
answers are 1536-dimensional, `embed_chunks` returns a matrix of exactly one
row per chunk, each row of dimension 1536, where row i is the service's
embedding of chunk i when that call succeeds and the zero vector when it
fails; no single failure aborts the batch or shifts another row. -/
theorem embed_chunks_aligned (env : Env) (svc : Str → Option Vec) (chunks : List Str)
    (hok : ∃ cl, get_kong_client env = .ok cl)
    (hdim : ∀ s v, svc s = some v → v.length = embedDim) :
    ∃ r, embed_chunks env svc chunks = .ok r
      ∧ r.matrix.rows.length = chunks.length
      ∧ (∀ v ∈ r.matrix.rows, v.length = embedDim)
      ∧ ∀ i : Nat, r.matrix.rows[i]? =
          (chunks[i]?).map fun c =>
            match svc c with
            | some v => v
            | none => zeroVec := by
  obtain ⟨cl, hcl⟩ := hok
  by_cases hc : chunks.isEmpty = true
  · have hnil : chunks = [] := List.isEmpty_iff.1 hc
    subst hnil
    exact ⟨⟨⟨[], 1536⟩, []⟩, rfl, rfl, by simp, fun i => by simp⟩
  · refine ⟨⟨⟨chunks.map fun c => match svc c with | some v => v | none => zeroVec,
      ((chunks.map fun c => match svc c with | some v => v | none => zeroVec).headD []).length⟩,
      chunks⟩, ?_, by simp, ?_, ?_⟩
    · simp [embed_chunks, hc, hcl]
    · intro v hv
      rcases List.mem_map.1 hv with ⟨c, _, rfl⟩
      cases hsvc : svc c with
      | some w => simpa [hsvc] using hdim c w hsvc
      | none => simp [zeroVec]
    · intro i
      simp [List.getElem?_map]

/-- Witness for C1: two chunks, every service call failing: the batch is not
aborted, two aligned rows come back. -/
theorem embed_chunks_aligned_witness :
    ∃ r, embed_chunks envW svcFail [['a'], ['b']] = .ok r
      ∧ r.matrix.rows.length = ([['a'], ['b']] : List Str).length
      ∧ (∀ v ∈ r.matrix.rows, v.length = embedDim)
      ∧ ∀ i : Nat, r.matrix.rows[i]? =
          (([['a'], ['b']] : List Str)[i]?).map fun c =>
            match svcFail c with
            | some v => v
            | none => zeroVec :=
  embed_chunks_aligned envW svcFail [['a'], ['b']] ⟨(['t'], ['u']), rfl⟩
    (fun _ _ h => nomatch h)

/-- C2: when the chunk list and matrix are non-empty and any step after the
emptiness check fails — client construction, the question-embedding call, or
the faiss search (dimension mismatch) — the retriever returns the first
`top_k` chunks in original document order instead of raising. -/
theorem retrieve_fallback_on_failure (env : Env) (svc : Str → Option Vec)
    (question : Str) (chunks : List Str) (embeddings : NpMatrix) (top_k : Nat)
    (hne : chunks ≠ []) (hrows : embeddings.rows ≠ [])
    (hfail : (∃ e, get_kong_client env = .error e) ∨ svc question = none
      ∨ ∃ qv, svc question = some qv ∧ qv.length ≠ embeddings.width) :
    (retrieve_relevant_chunks env svc question chunks embeddings top_k).result
      = chunks.take top_k := by
  have hlen0 := length_ne_zero_of_ne_nil hrows
  rcases hfail with ⟨e, he⟩ | hnone | ⟨qv, hqv, hlen⟩
  · simp [retrieve_relevant_chunks, hne, hlen0, he]
  · cases hcl : get_kong_client env with
    | error e => simp [retrieve_relevant_chunks, hne, hlen0, hcl]
    | ok cl => simp [retrieve_relevant_chunks, hne, hlen0, hcl, hnone]
  · cases hcl : get_kong_client env with
    | error e => simp [retrieve_relevant_chunks, hne, hlen0, hcl]
    | ok cl => simp [retrieve_relevant_chunks, hne, hlen0, hcl, hqv, hlen]

/-- Witness for C2: the question-embedding call fails; the first `top_k`
chunks in document order come back. -/
theorem retrieve_fallback_on_failure_witness :
    (retrieve_relevant_chunks envW svcFail ['q'] [['a'], ['b']] ⟨[[1, 0]], 2⟩ 1).result
      = ([['a'], ['b']] : List Str).take 1 :=
  retrieve_fallback_on_failure envW svcFail ['q'] [['a'], ['b']] ⟨[[1, 0]], 2⟩ 1
    (by decide) (fun h => List.noConfusion h) (Or.inr (Or.inl rfl))

/-- C5: on the success path the number of neighbors requested from the index
is `min top_k chunks.length`, and that is exactly the number of chunks
returned — when the requested k exceeds the chunk count, exactly N results,
no error, no padding; a retrieval over zero chunks returns an empty result
without error. -/
theorem retrieve_clamps_k (env : Env) (svc : Str → Option Vec) (question : Str)
    (chunks : List Str) (embeddings : NpMatrix) (top_k : Nat)
    (halign : embeddings.rows.length = chunks.length)
    (hok : ∃ cl, get_kong_client env = .ok cl)
    (hq : ∃ qv, svc question = some qv ∧ qv.length = embeddings.width) :
    (retrieve_relevant_chunks env svc question chunks embeddings top_k).result.length
        = min top_k chunks.length
      ∧ ∀ m : NpMatrix,
          (retrieve_relevant_chunks env svc question [] m top_k).result = [] := by
  refine ⟨?_, fun m => rfl⟩
  by_cases hc : chunks = []
  · subst hc
    simp [retrieve_relevant_chunks]
  · obtain ⟨cl, hcl⟩ := hok
    obtain ⟨qv, hqv, hlen⟩ := hq
    have hlen0 : ¬embeddings.rows.length = 0 := by
      rw [halign]
      exact length_ne_zero_of_ne_nil hc
    have h1 : ¬((chunks.isEmpty || embeddings.rows.length == 0) = true) := by
      simp [hc, hlen0]
    simp only [retrieve_relevant_chunks, hcl, hqv, hlen, if_true]
    rw [if_neg h1]
    dsimp only
    have hfil := knnSearch_filter_all embeddings.rows qv (min top_k chunks.length)
      chunks.length halign.le
    rw [List.length_map, hfil, knnSearch_length, halign]
    omega

/-- Witness for C5: requested k (5) exceeds the chunk count (3): exactly 3
results, no padding. -/
theorem retrieve_clamps_k_witness :
    (retrieve_relevant_chunks envW svcConst2 ['q'] [['a'], ['b'], ['c']]
        ⟨[[1, 0], [0, 1], [1, 1]], 2⟩ 5).result.length = min 5 3 :=
  (retrieve_clamps_k envW svcConst2 ['q'] [['a'], ['b'], ['c']]
    ⟨[[1, 0], [0, 1], [1, 1]], 2⟩ 5 rfl ⟨(['t'], ['u']), rfl⟩ ⟨[1, 0], rfl, rfl⟩).1

/-- C6: an empty chunk list makes `embed_chunks` return the zero-row,
1536-wide matrix, and makes `retrieve_relevant_chunks` (likewise for a
zero-row matrix) return an empty result; the recorded service-call trace is
empty in every case, for every service oracle. -/
theorem empty_input_short_circuits :
    (∀ env svc, embed_chunks env svc [] = .ok ⟨⟨[], 1536⟩, []⟩)
      ∧ (∀ env svc question embeddings top_k,
          retrieve_relevant_chunks env svc question [] embeddings top_k = ⟨[], []⟩)
      ∧ ∀ env svc question chunks w top_k,
          retrieve_relevant_chunks env svc question chunks ⟨[], w⟩ top_k = ⟨[], []⟩ := by
  refine ⟨fun env svc => rfl, fun env svc question embeddings top_k => rfl, ?_⟩
  intro env svc question chunks w top_k
  simp [retrieve_relevant_chunks]

/-- C7 counterexample: at a concrete input whose query dimension (3) differs
from the matrix dimension (2), `retrieve_relevant_chunks` does not fail
loudly: it returns the document-order fallback, a degraded result. -/
theorem dim_mismatch_not_loud :
    retrieve_relevant_chunks envW svcConst3 ['q'] [['a'], ['b']]
        ⟨[[1, 0], [0, 1]], 2⟩ 3
      = ⟨[['a'], ['b']], [['q']]⟩ := rfl

/-- C7 (amended): a dimension mismatch between the query vector and the
matrix is absorbed by the retriever's catch-all handler like any other
retrieval-stage failure, yielding the first `top_k` chunks in document
order; it does not propagate. -/
theorem dim_mismatch_falls_back (env : Env) (svc : Str → Option Vec)
    (question : Str) (chunks : List Str) (embeddings : NpMatrix) (top_k : Nat)
    (hne : chunks ≠ []) (hrows : embeddings.rows ≠ [])
    (hok : ∃ cl, get_kong_client env = .ok cl)
    (hqv : ∃ qv, svc question = some qv ∧ qv.length ≠ embeddings.width) :
    retrieve_relevant_chunks env svc question chunks embeddings top_k
      = ⟨chunks.take top_k, [question]⟩ := by
  obtain ⟨cl, hcl⟩ := hok
  obtain ⟨qv, hqv', hlen⟩ := hqv
  have hlen0 := length_ne_zero_of_ne_nil hrows
  simp [retrieve_relevant_chunks, hne, hlen0, hcl, hqv', hlen]

/-- Witness for the amended C7 at a concrete mismatching input. -/
theorem dim_mismatch_falls_back_witness :
    retrieve_relevant_chunks envW svcConst3 ['x'] [['a'], ['b'], ['c']]
        ⟨[[1, 0], [0, 1]], 2⟩ 2
      = ⟨([['a'], ['b'], ['c']] : List Str).take 2, [['x']]⟩ :=
  dim_mismatch_falls_back envW svcConst3 ['x'] [['a'], ['b'], ['c']]
    ⟨[[1, 0], [0, 1]], 2⟩ 2 (by decide) (fun h => List.noConfusion h)
    ⟨(['t'], ['u']), rfl⟩ ⟨[1, 0, 0], rfl, by decide⟩

/-- C9: with a non-empty chunk list and the Kong configuration missing,
`embed_chunks` raises the ValueError before any embedding call (the client
is built outside the per-chunk try), while the same error inside
`retrieve_relevant_chunks` is absorbed into the document-order fallback with
no service call made. -/
theorem missing_config_paths (env : Env) (svc : Str → Option Vec) (chunks : List Str)
    (hne : chunks ≠ [])
    (hmiss : truthy env.KONG_API_TOKEN = false ∨ truthy env.KONG_BASE_URL = false) :
    embed_chunks env svc chunks = .error kongMissingMsg
      ∧ ∀ question embeddings top_k, embeddings.rows ≠ [] →
          retrieve_relevant_chunks env svc question chunks embeddings top_k
            = ⟨chunks.take top_k, []⟩ := by
  have hcl : get_kong_client env = .error kongMissingMsg := by
    rcases hmiss with h | h <;> simp [get_kong_client, h]
  constructor
  · simp [embed_chunks, hne, hcl]
  · intro question embeddings top_k hrows
    have hlen0 := length_ne_zero_of_ne_nil hrows
    simp [retrieve_relevant_chunks, hne, hlen0, hcl]

/-- Witness for C9: unset API token, one chunk: `embed_chunks` raises and
the retriever falls back with no service call recorded. -/
theorem missing_config_paths_witness :
    embed_chunks envMiss svcFail [['a']] = .error kongMissingMsg :=
  (missing_config_paths envMiss svcFail [['a']] (by decide) (Or.inl rfl)).1

/-- C10: on every path — empty input, similarity search with its bound check,
or fallback — every returned string is one of the input chunks and at most
`top_k` strings are returned. -/
theorem retrieve_subset_and_bounded (env : Env) (svc : Str → Option Vec)
    (question : Str) (chunks : List Str) (embeddings : NpMatrix) (top_k : Nat) :
    (∀ c ∈ (retrieve_relevant_chunks env svc question chunks embeddings top_k).result,
        c ∈ chunks)
      ∧ (retrieve_relevant_chunks env svc question chunks embeddings top_k).result.length
          ≤ top_k := by
  have htake : (∀ c ∈ chunks.take top_k, c ∈ chunks) ∧ (chunks.take top_k).length ≤ top_k :=
    ⟨fun _ hc => List.take_subset _ _ hc, by rw [List.length_take]; exact min_le_left _ _⟩
  unfold retrieve_relevant_chunks
  by_cases h1 : (chunks.isEmpty || embeddings.rows.length == 0) = true
  · rw [if_pos h1]
    exact ⟨fun c hc => absurd hc (List.not_mem_nil c), Nat.zero_le _⟩
  · rw [if_neg h1]
    cases hcl : get_kong_client env with
    | error e => exact htake
    | ok cl =>
      cases hsvc : svc question with
      | none => exact htake
      | some qv =>
        by_cases hdim : qv.length = embeddings.width
        · dsimp only
          rw [if_pos hdim]
          constructor
          · intro c hc
            rcases List.mem_map.1 hc with ⟨i, hif, rfl⟩
            have hilt : i < chunks.length :=
              of_decide_eq_true (List.mem_filter.1 hif).2
            exact getD_mem chunks i hilt
          · rw [List.length_map]
            calc ((knnSearch embeddings.rows qv (min top_k chunks.length)).filter
                    fun i => i < chunks.length).length
                ≤ (knnSearch embeddings.rows qv (min top_k chunks.length)).length :=
                  List.length_filter_le _ _
              _ = min (min top_k chunks.length) embeddings.rows.length :=
                  knnSearch_length _ _ _
              _ ≤ top_k := by omega
        · dsimp only
          rw [if_neg hdim]
          exact htake

/-- Witness for C10 at a concrete input (failing service, fallback path):
the first returned string is an input chunk and at most `top_k` = 3 strings
come back. -/
theorem retrieve_subset_and_bounded_witness :
    ['a'] ∈ ([['a'], ['b']] : List Str)
      ∧ (retrieve_relevant_chunks envW svcFail ['q'] [['a'], ['b']]
          ⟨[[1, 0]], 2⟩ 3).result.length ≤ 3 :=
  ⟨(retrieve_subset_and_bounded envW svcFail ['q'] [['a'], ['b']]
      ⟨[[1, 0]], 2⟩ 3).1 ['a'] (by decide),
    (retrieve_subset_and_bounded envW svcFail ['q'] [['a'], ['b']]
      ⟨[[1, 0]], 2⟩ 3).2⟩

/-! ### Helper lemmas about the chunker -/

theorem pyStrip_length_le (s : Str) : (pyStrip s).length ≤ s.length := by
  have h1 : (s.dropWhile isPySpace).length ≤ s.length :=
    (List.dropWhile_sublist _).length_le
  have h2 : ((s.dropWhile isPySpace).reverse.dropWhile isPySpace).length
      ≤ (s.dropWhile isPySpace).reverse.length :=
    (List.dropWhile_sublist _).length_le
  rw [List.length_reverse] at h2
  calc (pyStrip s).length
      = ((s.dropWhile isPySpace).reverse.dropWhile isPySpace).length :=
        List.length_reverse _
    _ ≤ s.length := le_trans h2 h1

theorem windowChunk_cut_of_window (content : Str) (i : Nat) :
    windowChunk content i <+: windowAt content i := by
  simp only [windowChunk]
  by_cases h : i + 800 < content.length
  · rw [if_pos h]
    by_cases h2 : 560 < pyRfind '.' (windowAt content i)
    · rw [if_pos h2]
      exact List.take_prefix _ _
    · rw [if_neg h2]
  · rw [if_neg h]

theorem windowAt_length_le (content : Str) (i : Nat) :
    (windowAt content i).length ≤ 800 := by
  simp only [windowAt, List.length_take]
  exact min_le_left _ _

theorem winCount_zero {len : Nat} (h : winCount len = 0) : len = 0 := by
  unfold winCount at h
  omega

theorem winCount_drop {len n : Nat} (h : winCount len = n + 1) :
    winCount (len - 800) = n := by
  unfold winCount at h ⊢
  omega

theorem range'_map_windowAt : ∀ (n k : Nat) (s : Str),
    (List.range' k n 800).map (windowAt s)
      = (List.range' 0 n 800).map (windowAt (s.drop k)) := by
  intro n
  induction n with
  | zero => intro k s; rfl
  | succ n ih =>
    intro k s
    rw [List.range'_succ, List.range'_succ]
    simp only [List.map_cons, Nat.zero_add]
    have hhead : windowAt s k = windowAt (s.drop k) 0 := by
      simp [windowAt]
    have htail : (List.range' (k + 800) n 800).map (windowAt s)
        = (List.range' 800 n 800).map (windowAt (s.drop k)) := by
      rw [ih (k + 800) s, ih 800 (s.drop k)]
      rw [List.drop_drop]
    rw [hhead, htail]

theorem windows_flatten_aux : ∀ (n : Nat) (s : Str), winCount s.length = n →
    (windows s).flatten = s := by
  intro n
  induction n with
  | zero =>
    intro s h
    have hs : s = [] := List.length_eq_zero.1 (winCount_zero h)
    subst hs
    rfl
  | succ n ih =>
    intro s h
    rw [windows, pyRangeIdx, h, List.range'_succ]
    simp only [List.map_cons, List.flatten_cons, Nat.zero_add]
    rw [range'_map_windowAt n 800 s]
    have hw : winCount (s.drop 800).length = n := by
      rw [List.length_drop]
      exact winCount_drop h
    have hrec := ih (s.drop 800) hw
    rw [windows, pyRangeIdx, hw] at hrec
    rw [hrec, show windowAt s 0 = s.take 800 from by simp [windowAt]]
    exact List.take_append_drop 800 s

theorem windows_flatten (s : Str) : (windows s).flatten = s :=
  windows_flatten_aux (winCount s.length) s rfl

theorem windows_shape (s : Str) : ∀ w ∈ windows s, w.length ≤ 800 ∧ w ≠ [] := by
  intro w hw
  rw [windows] at hw
  rcases List.mem_map.1 hw with ⟨i, hi, rfl⟩
  refine ⟨windowAt_length_le s i, ?_⟩
  rw [pyRangeIdx] at hi
  rcases List.mem_range'.1 hi with ⟨j, hj, rfl⟩
  have hjc : j < winCount s.length := hj
  have hilt : 0 + 800 * j < s.length := by
    unfold winCount at hjc
    omega
  have hlen : 0 < (windowAt s (0 + 800 * j)).length := by
    simp only [windowAt, List.length_take, List.length_drop]
    omega
  exact List.length_pos.1 hlen

theorem chunkLoop_mem : ∀ (idxs : List Nat) (content : Str) (acc : List Str)
    (maxc : Nat) (ch : Str), ch ∈ chunkLoop content idxs acc maxc →
    ch ∈ acc ∨ ∃ i ∈ idxs, ch = pyStrip (windowChunk content i) := by
  intro idxs
  induction idxs with
  | nil =>
    intro content acc maxc ch hch
    rw [chunkLoop] at hch
    exact Or.inl (List.mem_reverse.1 hch)
  | cons i is ihl =>
    intro content acc maxc ch hch
    simp only [chunkLoop] at hch
    have hfromacc' : ∀ x, x ∈ (if (pyStrip (windowChunk content i)).isEmpty then acc
        else pyStrip (windowChunk content i) :: acc) →
        x ∈ acc ∨ ∃ j ∈ i :: is, x = pyStrip (windowChunk content j) := by
      intro x hx
      by_cases he : (pyStrip (windowChunk content i)).isEmpty
      · rw [if_pos he] at hx
        exact Or.inl hx
      · rw [if_neg he] at hx
        rcases List.mem_cons.1 hx with h | h
        · exact Or.inr ⟨i, List.mem_cons_self _ _, h⟩
        · exact Or.inl h
    by_cases hstop : maxc ≤ (if (pyStrip (windowChunk content i)).isEmpty then acc
        else pyStrip (windowChunk content i) :: acc).length
    · rw [if_pos hstop] at hch
      exact hfromacc' ch (List.mem_reverse.1 hch)
    · rw [if_neg hstop] at hch
      rcases ihl content _ maxc ch hch with h | ⟨j, hj, he⟩
      · exact hfromacc' ch h
      · exact Or.inr ⟨j, List.mem_cons_of_mem _ hj, he⟩

/-- C4: the chunking pass never produces a chunk longer than 800 characters,
and every produced chunk is the stripped form of a prefix of one of the
successive 800-character windows, which are non-overlapping and cover the
source text in order (their concatenation is the text). -/
theorem chunker_bounded_and_windows_cover (content : Str) (max_chunks : Nat) :
    (∀ chunk ∈ chunkText content max_chunks,
        chunk.length ≤ 800 ∧ ∃ w ∈ windows content, ∃ p, p <+: w ∧ chunk = pyStrip p)
      ∧ (windows content).flatten = content
      ∧ ∀ w ∈ windows content, w.length ≤ 800 ∧ w ≠ [] := by
  refine ⟨?_, windows_flatten content, windows_shape content⟩
  intro chunk hch
  rcases chunkLoop_mem (pyRangeIdx content.length) content [] max_chunks chunk hch with h |
    ⟨i, hi, he⟩
  · exact absurd h (List.not_mem_nil chunk)
  · have hwmem : windowAt content i ∈ windows content := by
      rw [windows]
      exact List.mem_map.2 ⟨i, hi, rfl⟩
    refine ⟨?_, windowAt content i, hwmem, windowChunk content i,
      windowChunk_cut_of_window content i, he⟩
    have h1 := pyStrip_length_le (windowChunk content i)
    have h2 := (windowChunk_cut_of_window content i).length_le
    have h3 := windowAt_length_le content i
    subst he
    omega

/-- Witness for C4 at a concrete two-character text: the single produced
chunk is at most 800 long and is cut from a window, and the windows cover
the text. -/
theorem chunker_bounded_and_windows_cover_witness :
    ((['a', 'b'] : Str).length ≤ 800
        ∧ ∃ w ∈ windows ['a', 'b'], ∃ p, p <+: w ∧ (['a', 'b'] : Str) = pyStrip p)
      ∧ (windows ['a', 'b']).flatten = ['a', 'b'] :=
  ⟨(chunker_bounded_and_windows_cover ['a', 'b'] 10).1 ['a', 'b'] (by decide),
    (chunker_bounded_and_windows_cover ['a', 'b'] 10).2.1⟩

/-- C8: when the source text cannot be obtained — the search raises or
yields no results, or the page fetch fails, or it raises a disambiguation
whose fallback (empty options, failing or again-disambiguating option page)
also fails — `get_wikipedia_chunks` returns an empty list rather than
raising. -/
theorem wiki_failures_empty (w : Wiki) (fuel : Nat) (query : Str) (max_chunks : Nat) :
    (w.search query = none → get_wikipedia_chunks w (fuel + 1) query max_chunks = [])
      ∧ (w.search query = some [] → get_wikipedia_chunks w (fuel + 1) query max_chunks = [])
      ∧ ∀ first rest, w.search query = some (first :: rest) →
          (w.page first = .err → get_wikipedia_chunks w (fuel + 1) query max_chunks = [])
            ∧ ∀ options, w.page first = .disambig options →
                (options = [] → get_wikipedia_chunks w (fuel + 1) query max_chunks = [])
                  ∧ ∀ o os, options = o :: os →
                      (w.page o = .err ∨ ∃ t, w.page o = .disambig t) →
                      get_wikipedia_chunks w (fuel + 1) query max_chunks = [] := by
  refine ⟨?_, ?_, ?_⟩
  · intro h
    simp [get_wikipedia_chunks, h]
  · intro h
    simp [get_wikipedia_chunks, h]
  · intro first rest hsr
    refine ⟨?_, ?_⟩
    · intro hp
      simp [get_wikipedia_chunks, hsr, hp]
    · intro options hp
      refine ⟨?_, ?_⟩
      · intro ho
        subst ho
        simp [get_wikipedia_chunks, hsr, hp]
      · intro o os ho hfail
        subst ho
        rcases hfail with h | ⟨t, h⟩ <;> simp [get_wikipedia_chunks, hsr, hp, h]

/-- Witness for C8: a wikipedia collaborator whose search raises yields an
empty chunk list. -/
theorem wiki_failures_empty_witness :
    get_wikipedia_chunks wikiDown 5 ['q'] 10 = [] :=
  (wiki_failures_empty wikiDown 4 ['q'] 10).1 rfl

end Retrieval
